import Mathlib

/-!
Verification of the plasma-sdk adapter: a shallow embedding of the
fixed-point arithmetic type (src/plasma/fixed.rs), the pool account
wire layout and its borsh codec (src/plasma/plasma_utils.rs and
src/lib.rs), the integer downcast helper (src/plasma/mod.rs), the
swap instruction encoder (src/plasma/plasma_utils.rs), and the
refresh/quote operations of the aggregator adapter (src/lib.rs),
together with proofs settling the frozen claims about them.
-/

set_option maxRecDepth 16384

namespace PlasmaSdk

/-- A byte of on-chain account data. -/
abbrev Byte := Fin 256

/-- The low eight bits of a natural number, as a byte. -/
def byteOf (n : Nat) : Byte := ⟨n % 256, by omega⟩

/-- A byte string whose length is fixed at `n` (the embedding of the
fixed-size arrays of the wire format, such as Rust `[u8; 8]`). -/
abbrev Bytes (n : Nat) := { l : List Byte // l.length = n }

/-- A 32-byte Solana public key (`solana_program::pubkey::Pubkey`). -/
abbrev Pubkey := Bytes 32

/-- A concrete public key built from a seed number; used to supply the
distinct concrete addresses that appear in concrete test states. -/
def pubkeyOfNat (n : Nat) : Pubkey :=
  ⟨(List.range 32).map (fun i => byteOf (n / 256 ^ i)), by simp⟩

/-! ## Little-endian integer codec

Borsh serializes the unsigned integer fields of the pool structures in
little-endian byte order with a fixed width (4 bytes for `u32`, 8 bytes
for `u64`). -/
/-- Little-endian encoding of `n` into exactly `w` bytes. -/
def natToLE : Nat → Nat → List Byte
  | 0, _ => []
  | w + 1, n => byteOf n :: natToLE w (n / 256)

/-- Read a `w`-byte little-endian integer from the front of a byte
stream, returning the value and the remaining bytes. -/
def readLE : Nat → List Byte → Option (Nat × List Byte)
  | 0, bs => some (0, bs)
  | _ + 1, [] => none
  | w + 1, b :: bs =>
    match readLE w bs with
    | none => none
    | some (n, rest) => some (b.val + 256 * n, rest)

/-- Read a fixed-size byte array (the borsh encoding of `[u8; n]` and of
`Pubkey`) from the front of a byte stream. -/
def readVec (n : Nat) (bs : List Byte) : Option (Bytes n × List Byte) :=
  if h : n ≤ bs.length then
    some (⟨bs.take n, by rw [List.length_take]; omega⟩, bs.drop n)
  else none

/-- Borsh encoding of an array of `u64` values (Rust `[u64; k]`): the
concatenation of the 8-byte little-endian encodings of its elements. -/
def encodeU64List (l : List Nat) : List Byte :=
  l.foldr (fun n acc => natToLE 8 n ++ acc) []

/-- Read `k` consecutive little-endian `u64` values from a byte stream. -/
def readU64List : Nat → List Byte → Option (List Nat × List Byte)
  | 0, bs => some ([], bs)
  | k + 1, bs =>
    (readLE 8 bs).bind fun p =>
    (readU64List k p.2).bind fun q =>
    some (p.1 :: q.1, q.2)

/-! ## Sequential reader combinators

Borsh deserializes a struct by reading its fields in declaration order
from the front of the buffer; `andThen` and `pureRead` express that
sequencing so that the per-struct readers below mirror the Rust field
order literally. -/
/-- Run a reader, then feed its value and the remaining bytes to a
continuation. -/
def andThen {α β : Type} (r : List Byte → Option (α × List Byte))
    (k : α → List Byte → Option (β × List Byte)) :
    List Byte → Option (β × List Byte) :=
  fun bs => (r bs).bind fun p => k p.1 p.2

/-- A reader that consumes nothing and returns a fixed value. -/
def pureRead {α : Type} (x : α) : List Byte → Option (α × List Byte) :=
  fun bs => some (x, bs)

/-- A reader consumes exactly `size` bytes: any successful parse removes
`size` bytes from the stream, and any stream of at least `size` bytes
parses successfully. -/
def ReadSized {α : Type} (size : Nat)
    (r : List Byte → Option (α × List Byte)) : Prop :=
  (∀ bs x rest, r bs = some (x, rest) → bs.length = size + rest.length) ∧
  (∀ bs, size ≤ bs.length → ∃ x, r bs = some (x, bs.drop size))

/-! ## Pool account wire structures (src/plasma/plasma_utils.rs)

The structures below carry the same fields in the same order as the
Rust definitions; `u32` and `u64` fields are embedded as `Nat` together
with a well-formedness predicate bounding them by their machine range,
and fixed byte arrays as `Bytes n`. -/
/-- Upper bound (exclusive) of a `u32` value. -/
abbrev U32_BOUND : Nat := 256 ^ 4

/-- Upper bound (exclusive) of a `u64` value. -/
abbrev U64_BOUND : Nat := 256 ^ 8

/-- Total serialized size in bytes of a pool account (`POOL_LEN`). -/
def POOL_LEN : Nat := 624

/-- The expected 8-byte discriminator tag of a pool account
(`POOL_DISCRIMINATOR`). -/
def POOL_DISCRIMINATOR : Bytes 8 := ⟨[116, 210, 187, 119, 196, 196, 52, 137], rfl⟩

/-- Per-token parameters of one side of the pool (`struct TokenParams`). -/
structure TokenParams where
  decimals : Nat
  vault_bump : Nat
  mint_key : Pubkey
  vault_key : Pubkey
deriving DecidableEq

/-- Machine-range bounds of the integer fields of `TokenParams`. -/
abbrev TokenParams.wf (t : TokenParams) : Prop :=
  t.decimals < U32_BOUND ∧ t.vault_bump < U32_BOUND

/-- One protocol fee recipient entry (`struct ProtocolFeeRecipient`). -/
structure ProtocolFeeRecipient where
  recipient : Pubkey
  shares : Nat
  total_accumulated_quote_fees : Nat
  collected_quote_fees : Nat
deriving DecidableEq

/-- Machine-range bounds of the integer fields of `ProtocolFeeRecipient`. -/
abbrev ProtocolFeeRecipient.wf (r : ProtocolFeeRecipient) : Prop :=
  r.shares < U64_BOUND ∧ r.total_accumulated_quote_fees < U64_BOUND ∧
    r.collected_quote_fees < U64_BOUND

/-- The fee recipient table (`struct ProtocolFeeRecipients`): three
recipient entries followed by reserved padding (the Rust private field
is named with a leading underscore, `[u64; 12]`). -/
structure ProtocolFeeRecipients where
  recipients : ProtocolFeeRecipient × ProtocolFeeRecipient × ProtocolFeeRecipient
  padding : List Nat
deriving DecidableEq

/-- Well-formedness of the fee recipient table: each entry is in machine
range and the padding is twelve `u64` values. -/
abbrev ProtocolFeeRecipients.wf (f : ProtocolFeeRecipients) : Prop :=
  f.recipients.1.wf ∧ f.recipients.2.1.wf ∧ f.recipients.2.2.wf ∧
    f.padding.length = 12 ∧ ∀ x ∈ f.padding, x < U64_BOUND

/-- The fixed pool account header (`struct PoolHeader`). -/
structure PoolHeader where
  discriminator : Bytes 8
  sequence_number : Nat
  base_params : TokenParams
  quote_params : TokenParams
  fee_recipients : ProtocolFeeRecipients
  swap_sequence_number : Nat
  padding : List Nat
deriving DecidableEq

/-- Well-formedness of a pool header: all integer fields in machine
range and the reserved padding is twelve `u64` values. -/
abbrev PoolHeader.wf (h : PoolHeader) : Prop :=
  h.sequence_number < U64_BOUND ∧ h.base_params.wf ∧ h.quote_params.wf ∧
    h.fee_recipients.wf ∧ h.swap_sequence_number < U64_BOUND ∧
    h.padding.length = 12 ∧ ∀ x ∈ h.padding, x < U64_BOUND

/-- Modelled from the spec: the AMM state payload
(`plasma::plasma_amm::Amm`) that follows the header inside a pool
account. Its defining module is not among the given sources; section 6
of the spec fixes it as the remainder of the fixed 624-byte account
after the 528-byte header — 96 bytes that are opaque to this adapter. -/
abbrev PlasmaAmmState := Bytes 96

/-- A whole pool account (`struct PoolAccount`): header followed by the
AMM state payload. -/
structure PoolAccount where
  header : PoolHeader
  amm : PlasmaAmmState
deriving DecidableEq

/-! ### Borsh encoding and decoding of the pool structures -/
/-- Borsh serialization of `TokenParams` (fields in declaration order). -/
def encodeTokenParams (t : TokenParams) : List Byte :=
  natToLE 4 t.decimals ++ natToLE 4 t.vault_bump ++ t.mint_key.val ++ t.vault_key.val

/-- Borsh serialization of `ProtocolFeeRecipient`. -/
def encodeRecipient (r : ProtocolFeeRecipient) : List Byte :=
  r.recipient.val ++ natToLE 8 r.shares ++
    natToLE 8 r.total_accumulated_quote_fees ++ natToLE 8 r.collected_quote_fees

/-- Borsh serialization of `ProtocolFeeRecipients`. -/
def encodeRecipients (f : ProtocolFeeRecipients) : List Byte :=
  encodeRecipient f.recipients.1 ++ encodeRecipient f.recipients.2.1 ++
    encodeRecipient f.recipients.2.2 ++ encodeU64List f.padding

/-- Borsh serialization of `PoolHeader`. -/
def encodePoolHeader (h : PoolHeader) : List Byte :=
  h.discriminator.val ++ natToLE 8 h.sequence_number ++
    encodeTokenParams h.base_params ++ encodeTokenParams h.quote_params ++
    encodeRecipients h.fee_recipients ++ natToLE 8 h.swap_sequence_number ++
    encodeU64List h.padding

/-- Borsh deserialization of `TokenParams`. -/
def readTokenParams : List Byte → Option (TokenParams × List Byte) :=
  andThen (readLE 4) fun decimals =>
  andThen (readLE 4) fun vault_bump =>
  andThen (readVec 32) fun mint_key =>
  andThen (readVec 32) fun vault_key =>
  pureRead ⟨decimals, vault_bump, mint_key, vault_key⟩

/-- Borsh deserialization of `ProtocolFeeRecipient`. -/
def readRecipient : List Byte → Option (ProtocolFeeRecipient × List Byte) :=
  andThen (readVec 32) fun recipient =>
  andThen (readLE 8) fun shares =>
  andThen (readLE 8) fun total_fees =>
  andThen (readLE 8) fun collected_fees =>
  pureRead ⟨recipient, shares, total_fees, collected_fees⟩

/-- Borsh deserialization of `ProtocolFeeRecipients`. -/
def readRecipients : List Byte → Option (ProtocolFeeRecipients × List Byte) :=
  andThen readRecipient fun r0 =>
  andThen readRecipient fun r1 =>
  andThen readRecipient fun r2 =>
  andThen (readU64List 12) fun padding =>
  pureRead ⟨(r0, r1, r2), padding⟩

/-- Borsh deserialization of `PoolHeader`. -/
def readPoolHeader : List Byte → Option (PoolHeader × List Byte) :=
  andThen (readVec 8) fun discriminator =>
  andThen (readLE 8) fun sequence_number =>
  andThen readTokenParams fun base_params =>
  andThen readTokenParams fun quote_params =>
  andThen readRecipients fun fee_recipients =>
  andThen (readLE 8) fun swap_sequence_number =>
  andThen (readU64List 12) fun padding =>
  pureRead ⟨discriminator, sequence_number, base_params, quote_params,
    fee_recipients, swap_sequence_number, padding⟩

/-- Borsh deserialization of `PoolAccount`. -/
def readPoolAccount : List Byte → Option (PoolAccount × List Byte) :=
  andThen readPoolHeader fun header =>
  andThen (readVec 96) fun amm =>
  pureRead ⟨header, amm⟩

/-- Borsh `PoolAccount::try_from_slice`: deserializes the account and
fails unless the buffer is consumed exactly. -/
def PoolAccount.try_from_slice (bs : List Byte) : Option PoolAccount :=
  match readPoolAccount bs with
  | some (a, []) => some a
  | _ => none

/-! ## Fixed-point arithmetic (src/plasma/fixed.rs) -/
/-- Arithmetic failure conditions of the underlying fixed-point library
(the `fixed` crate). These conditions panic in Rust; the embedding
surfaces them as typed errors. -/
inductive ArithError where
  | DivisionByZero
  | Overflow
deriving DecidableEq

/-- The signed fixed-point type with 80 integer bits and 48 fractional
bits (`struct I80F48`), stored as its raw bit pattern. The Rust field is
an `i128`; the embedding stores the bits as an unbounded `Int` together
with the `inRange` predicate delimiting the machine range. -/
structure I80F48 where
  inner : Int
deriving DecidableEq

/-- The fixed-point scaling factor: one unit is `2 ^ 48` raw bits. -/
def SCALE : Int := 2 ^ 48

/-- The `i128` machine range of the stored bit pattern. -/
def I80F48.inRange (x : I80F48) : Prop :=
  -(2 ^ 127) ≤ x.inner ∧ x.inner < 2 ^ 127

/-- Two's complement wrap-around into the `i128` range (release-mode
integer semantics of the underlying library). -/
def wrap128 (x : Int) : Int := (x + 2 ^ 127) % 2 ^ 128 - 2 ^ 127

/-- The constant `I80F48::ZERO`. -/
def I80F48.ZERO : I80F48 := ⟨0⟩

/-- Embeds `I80F48::from_num`: widen an unsigned 64-bit integer into
fixed-point; the value `v` is represented by the bit pattern `v * 2^48`,
which always fits the 80 integer bits. -/
def I80F48.from_num (value : Nat) : I80F48 := ⟨(value : Int) * SCALE⟩

/-- Embeds `I80F48::from_fraction`: numerator over denominator in fixed-point.
The underlying division panics on a zero denominator, surfaced here as
`DivisionByZero`; otherwise the bit pattern is the exact quotient
`numerator * 2^48 / denominator` truncated downward (both operands are
nonnegative, and for the `u64` domain the quotient cannot overflow). -/
def I80F48.from_fraction (numerator denominator : Nat) : Except ArithError I80F48 :=
  if denominator = 0 then
    .error .DivisionByZero
  else
    .ok ⟨((numerator : Int) * SCALE).fdiv (denominator : Int)⟩

/-- Embeds `I80F48::floor`: round toward negative infinity, then narrow to
`u64`. The narrowing conversion of the underlying library panics when
the floored value lies outside the `u64` range, surfaced as `Overflow`. -/
def I80F48.floor (x : I80F48) : Except ArithError Nat :=
  if 0 ≤ x.inner.fdiv SCALE ∧ x.inner.fdiv SCALE < 2 ^ 64 then
    .ok (x.inner.fdiv SCALE).toNat
  else
    .error .Overflow

/-- Fixed-point addition (`impl Add for I80F48`): bit patterns add. -/
def I80F48.add (a b : I80F48) : I80F48 := ⟨wrap128 (a.inner + b.inner)⟩

/-- Fixed-point subtraction (`impl Sub for I80F48`): bit patterns
subtract. -/
def I80F48.sub (a b : I80F48) : I80F48 := ⟨wrap128 (a.inner - b.inner)⟩

/-- Fixed-point multiplication (`impl Mul for I80F48`): the full product
of the bit patterns scaled down by `2^48`, truncating toward negative
infinity. -/
def I80F48.mul (a b : I80F48) : I80F48 :=
  ⟨wrap128 ((a.inner * b.inner).fdiv SCALE)⟩

instance : Add I80F48 := ⟨I80F48.add⟩

instance : Sub I80F48 := ⟨I80F48.sub⟩

instance : Mul I80F48 := ⟨I80F48.mul⟩

/-! ## Integer downcasting (src/plasma/mod.rs) -/
/-- Modelled from the spec: the state error enumeration
(`PlasmaStateError`, defined in plasma_error.rs, which is not among the
given sources). Only the overflow variant is referenced by the code in
scope, matching the ArithmeticError taxonomy of section 7 of the spec
(narrowing conversion out of range). -/
inductive PlasmaStateError where
  | Overflow
deriving DecidableEq

/-- The constant `u64::MAX`. -/
def U64_MAX : Nat := 2 ^ 64 - 1

/-- Embeds `impl Downcast<u64> for u128` (src/plasma/mod.rs): checked
narrowing of a `u128` value to `u64`. -/
def downcast_u64 (v : Nat) : Except PlasmaStateError Nat :=
  if v > U64_MAX then .error .Overflow else .ok v

/-! ## Instruction encoding (src/plasma/plasma_utils.rs) -/
/-- An account reference inside an instruction
(`solana_program::instruction::AccountMeta`). -/
structure AccountMeta where
  pubkey : Pubkey
  is_signer : Bool
  is_writable : Bool
deriving DecidableEq

/-- Embeds `AccountMeta::new`: a writable account reference. -/
def AccountMeta.new (pubkey : Pubkey) (is_signer : Bool) : AccountMeta :=
  ⟨pubkey, is_signer, true⟩

/-- Embeds `AccountMeta::new_readonly`: a read-only account reference. -/
def AccountMeta.new_readonly (pubkey : Pubkey) (is_signer : Bool) : AccountMeta :=
  ⟨pubkey, is_signer, false⟩

/-- A submittable instruction
(`solana_program::instruction::Instruction`). -/
structure Instruction where
  program_id : Pubkey
  accounts : List AccountMeta
  data : List Byte
deriving DecidableEq

/-- Packing of a seed byte string into a number, used by the model of
derived address computation below. -/
def seedVal (l : List Byte) : Nat :=
  l.foldl (fun a b => a * 257 + b.val + 1) 1

/-- Modelled from the spec: `Pubkey::find_program_address` of the
external Solana SDK, the fixed derivation of an address and bump seed
from seed byte strings and a program id (spec section 6, derived-address
schemes). The real computation is a hash; the model keeps the one
property the encoder relies on, that the derivation is a pure function
of the seeds and the program id. -/
def find_program_address (seeds : List (List Byte)) (program_id : Pubkey) :
    Pubkey × Nat :=
  (pubkeyOfNat ((seeds.map seedVal).foldl (fun a v => a * 1000003 + v)
    (seedVal program_id.val)), 255)

/-- The plasma program id declared by `declare_id!` in plasma_utils.rs.
The concrete bytes stand in for the base58 constant; no claim depends on
the value itself. -/
def ID : Pubkey := pubkeyOfNat 101

/-- The SPL token program id (`mod spl_token` in plasma_utils.rs),
likewise standing in for its base58 constant. -/
def spl_token_ID : Pubkey := pubkeyOfNat 102

/-- The ASCII bytes of the seed literal `vault`. -/
def vaultSeed : List Byte := [118, 97, 117, 108, 116]

/-- The ASCII bytes of the seed literal `log`. -/
def logSeed : List Byte := [108, 111, 103]

/-- Embeds `get_vault_address`: derive the vault address for a pool and mint. -/
def get_vault_address (plasma_program_id pool mint : Pubkey) : Pubkey × Nat :=
  find_program_address [vaultSeed, pool.val, mint.val] plasma_program_id

/-- Embeds `get_log_authority`: derive the log authority address. -/
def get_log_authority (plasma_program_id : Pubkey) : Pubkey :=
  (find_program_address [logSeed] plasma_program_id).1

/-- The swap instruction discriminator byte (`SWAP_DISCRIMINATOR`). -/
def SWAP_DISCRIMINATOR : Byte := 0

/-- Trade direction (`enum Side`). -/
inductive Side where
  | Buy
  | Sell
deriving DecidableEq

/-- Trade sizing mode of the instruction payload (`enum SwapType`). -/
inductive SwapType where
  | ExactIn (amount_in min_amount_out : Nat)
  | ExactOut (amount_out max_amount_in : Nat)
deriving DecidableEq

/-- Parameters of the swap instruction (`struct SwapParams` in
plasma_utils.rs). -/
structure SwapParams where
  side : Side
  swap_type : SwapType
deriving DecidableEq

/-- Borsh serialization of `Side`: the enum tag byte. -/
def serializeSide : Side → List Byte
  | .Buy => [0]
  | .Sell => [1]

/-- Borsh serialization of `SwapType`: the enum tag byte followed by the
two `u64` payload fields in declaration order. -/
def serializeSwapType : SwapType → List Byte
  | .ExactIn amount_in min_amount_out =>
    0 :: (natToLE 8 amount_in ++ natToLE 8 min_amount_out)
  | .ExactOut amount_out max_amount_in =>
    1 :: (natToLE 8 amount_out ++ natToLE 8 max_amount_in)

/-- Borsh serialization of `SwapParams`: fields in declaration order. -/
def serializeSwapParams (p : SwapParams) : List Byte :=
  serializeSide p.side ++ serializeSwapType p.swap_type

/-- The swap instruction encoder (`fn swap` in plasma_utils.rs). -/
def swap (pool_key trader base_mint quote_mint base_account_key quote_account_key :
    Pubkey) (params : SwapParams) : Instruction :=
  let log_authority := get_log_authority ID
  let base_vault_key := (get_vault_address ID pool_key base_mint).1
  let quote_vault_key := (get_vault_address ID pool_key quote_mint).1
  { program_id := ID
    accounts := [
      AccountMeta.new_readonly ID false,
      AccountMeta.new_readonly log_authority false,
      AccountMeta.new pool_key false,
      AccountMeta.new_readonly trader true,
      AccountMeta.new base_account_key false,
      AccountMeta.new quote_account_key false,
      AccountMeta.new base_vault_key false,
      AccountMeta.new quote_vault_key false,
      AccountMeta.new_readonly spl_token_ID false]
    data := SWAP_DISCRIMINATOR :: serializeSwapParams params }

/-! ## Quoting (src/lib.rs PlasmaAmm::quote) -/
/-- Result of a swap simulation: the adapter reads only the two transfer
amounts of the full result struct. -/
structure SwapResult where
  base_amount_to_transfer : Nat
  quote_amount_to_transfer : Nat
deriving DecidableEq

/-- A simulation failure, propagated opaquely by the adapter. -/
inductive SimError where
  | rejected
deriving DecidableEq

/-- Modelled from the spec: the slot-aware simulation capability of the
AMM state (`simulate_buy_exact_in_with_slot` and
`simulate_sell_exact_in_with_slot`, defined in plasma_amm.rs, which is
not among the given sources). Section 9 of the spec directs modelling
the two direction-specific simulation functions as an injected interface
of two methods taking the current slot and the input amount. -/
structure Sim where
  simulate_buy_exact_in_with_slot : Nat → Nat → Except SimError SwapResult
  simulate_sell_exact_in_with_slot : Nat → Nat → Except SimError SwapResult

/-- Trade sizing mode of the aggregator interface
(`jupiter_amm_interface::SwapMode`). -/
inductive SwapMode where
  | ExactIn
  | ExactOut
deriving DecidableEq

/-- A quote request (`jupiter_amm_interface::QuoteParams`). -/
structure QuoteParams where
  amount : Nat
  input_mint : Pubkey
  output_mint : Pubkey
  swap_mode : SwapMode
deriving DecidableEq

/-- A quote result (`jupiter_amm_interface::Quote`): the adapter fills
only the input and output amounts, leaving the remaining fields at their
defaults. -/
structure Quote where
  in_amount : Nat
  out_amount : Nat
deriving DecidableEq

/-- The aggregator-facing pool snapshot (`struct PlasmaAmm` in
src/lib.rs). -/
structure PlasmaAmm where
  pool_address : Pubkey
  plasma_amm : PoolAccount
  base_vault_amount : Nat
  quote_vault_amount : Nat
  slot : Nat
deriving DecidableEq

/-- Embeds `PlasmaAmm::quote` (src/lib.rs): the direction flag compares the
input mint with the quote-side mint of the snapshot; the simulation
capability stands for the methods of the AMM state payload. The
`output_mint` and `swap_mode` fields of the request are bound to
discarded names in the Rust and likewise never read here. -/
def quote (sim : Sim) (self : PlasmaAmm) (quote_params : QuoteParams) :
    Except SimError Quote :=
  let amount := quote_params.amount
  let is_quote_to_base : Bool :=
    decide (quote_params.input_mint = self.plasma_amm.header.quote_params.mint_key)
  match (if is_quote_to_base then
      sim.simulate_buy_exact_in_with_slot self.slot amount
    else
      sim.simulate_sell_exact_in_with_slot self.slot amount) with
  | .error e => .error e
  | .ok swap_result =>
    let out_amount :=
      if is_quote_to_base then swap_result.base_amount_to_transfer
      else swap_result.quote_amount_to_transfer
    .ok { in_amount := amount, out_amount := out_amount }

/-! ## Refresh (src/lib.rs PlasmaAmm::update) -/
/-- Failure modes of the decode and refresh paths. The Rust surfaces
them as distinct `anyhow` errors; the enumeration keeps them distinct. -/
inductive AdapterError where
  | MissingAccount
  | TokenUnpackFailed
  | PoolDecodeFailed
  | ClockDecodeFailed
deriving DecidableEq

/-- The account map supplied by the aggregator: raw account bytes by
address (`jupiter_amm_interface::AccountMap`). -/
abbrev AccountMap := Pubkey → Option (List Byte)

/-- Embeds `try_get_account_data`: look an address up in the account map,
failing with the missing-account error when it is absent. -/
def try_get_account_data (account_map : AccountMap) (key : Pubkey) :
    Except AdapterError (List Byte) :=
  match account_map key with
  | none => .error .MissingAccount
  | some data => .ok data

/-- The SPL token account state read by the refresh path: the adapter
consumes only the balance (`spl_token::state::Account::amount`). -/
structure TokenAccount where
  amount : Nat
deriving DecidableEq

/-- Little-endian value of a whole byte list. -/
def leVal (l : List Byte) : Nat := l.foldr (fun b n => b.val + 256 * n) 0

/-- Modelled from the spec: `spl_token::state::Account::unpack` of the
external SPL token library at its fixed 165-byte account layout. The
refresh contract treats it as the auxiliary-account decoder that can
fail on malformed bytes (spec section 4.2): the model checks the fixed
length, the three option tags, and an initialized state byte, and
extracts the balance at byte offset 64. -/
def TokenAccount.unpack (src : List Byte) : Except AdapterError TokenAccount :=
  if src.length = 165
      ∧ ((src.drop 72).take 4 = [0, 0, 0, 0] ∨ (src.drop 72).take 4 = [1, 0, 0, 0])
      ∧ ((src.drop 108).take 1 = [1] ∨ (src.drop 108).take 1 = [2])
      ∧ ((src.drop 109).take 4 = [0, 0, 0, 0] ∨ (src.drop 109).take 4 = [1, 0, 0, 0])
      ∧ ((src.drop 129).take 4 = [0, 0, 0, 0] ∨ (src.drop 129).take 4 = [1, 0, 0, 0])
  then .ok ⟨leVal ((src.drop 64).take 8)⟩
  else .error .TokenUnpackFailed

/-- Modelled from the spec: the chain clock sysvar address
(`sysvar::clock::id()` of the external Solana SDK), an opaque constant
address. -/
def sysvar_clock_id : Pubkey := pubkeyOfNat 7777777

/-- Modelled from the spec: `bincode` deserialization of the external
`Clock` sysvar (five 8-byte fields); the adapter consumes only the
leading slot field. -/
def deserializeClockSlot (data : List Byte) : Except AdapterError Nat :=
  if 40 ≤ data.length then .ok (leVal (data.take 8))
  else .error .ClockDecodeFailed

/-- Embeds `PlasmaAmm::update` (src/lib.rs): the refresh operation. The Rust
method mutates `self` in place through `&mut self` and returns early on
the first error; the embedding returns the result together with the
state the snapshot holds at the return point, following the statement
order of the source. -/
def update (self : PlasmaAmm) (account_map : AccountMap) :
    Except AdapterError Unit × PlasmaAmm :=
  match try_get_account_data account_map self.plasma_amm.header.base_params.vault_key with
  | .error e => (.error e, self)
  | .ok base_vault_account =>
  match TokenAccount.unpack base_vault_account with
  | .error e => (.error e, self)
  | .ok base_vault_token_account =>
  match try_get_account_data account_map self.plasma_amm.header.quote_params.vault_key with
  | .error e => (.error e, self)
  | .ok quote_vault_account =>
  match TokenAccount.unpack quote_vault_account with
  | .error e => (.error e, self)
  | .ok quote_vault_token_account =>
  let self1 := { self with
    base_vault_amount := base_vault_token_account.amount,
    quote_vault_amount := quote_vault_token_account.amount }
  match try_get_account_data account_map self1.pool_address with
  | .error e => (.error e, self1)
  | .ok plasma_amm_data =>
  match PoolAccount.try_from_slice plasma_amm_data with
  | none => (.error .PoolDecodeFailed, self1)
  | some plasma_amm =>
  let self2 := { self1 with plasma_amm := plasma_amm }
  match try_get_account_data account_map sysvar_clock_id with
  | .error e => (.error e, self2)
  | .ok clock_account =>
  match deserializeClockSlot clock_account with
  | .error e => (.error e, self2)
  | .ok slot => (.ok (), { self2 with slot := slot })

/-- The account handed to `from_keyed_account`
(`jupiter_amm_interface::KeyedAccount`): the adapter reads the key and
the raw data bytes. -/
structure KeyedAccount where
  key : Pubkey
  data : List Byte
deriving DecidableEq

/-- The aggregator context (`jupiter_amm_interface::AmmContext`): the
adapter reads the current slot from the shared clock reference. -/
structure AmmContext where
  clock_slot : Nat
deriving DecidableEq

/-- Embeds `PlasmaAmm::from_keyed_account` (src/lib.rs): decode a pool account
with borsh and build the initial snapshot with zero vault balances and
the context slot. -/
def from_keyed_account (keyed_account : KeyedAccount) (amm_context : AmmContext) :
    Except AdapterError PlasmaAmm :=
  match PoolAccount.try_from_slice keyed_account.data with
  | none => .error .PoolDecodeFailed
  | some pool_account =>
    .ok { pool_address := keyed_account.key
          plasma_amm := pool_account
          base_vault_amount := 0
          quote_vault_amount := 0
          slot := amm_context.clock_slot }

/-! ## Concrete fixtures

Concrete states evaluated by the closed theorems below. -/

/-- The all-zero public key. -/
def pkZero : Pubkey := pubkeyOfNat 0

/-- A concrete base vault address. -/
def baseVaultKey : Pubkey := pubkeyOfNat 1

/-- A concrete quote vault address. -/
def quoteVaultKey : Pubkey := pubkeyOfNat 2

/-- A concrete pool address. -/
def poolAddr : Pubkey := pubkeyOfNat 3

/-- A concrete base token mint. -/
def baseMint : Pubkey := pubkeyOfNat 4

/-- A concrete quote token mint. -/
def quoteMint : Pubkey := pubkeyOfNat 5

/-- A mint that is neither the base nor the quote mint of `hdr0`. -/
def otherMint : Pubkey := pubkeyOfNat 6

/-- An all-zero fee recipient entry. -/
def recipient0 : ProtocolFeeRecipient := ⟨pkZero, 0, 0, 0⟩

/-- A concrete well-formed pool header. -/
def hdr0 : PoolHeader :=
  { discriminator := ⟨List.replicate 8 0, rfl⟩
    sequence_number := 0
    base_params := ⟨9, 0, baseMint, baseVaultKey⟩
    quote_params := ⟨6, 0, quoteMint, quoteVaultKey⟩
    fee_recipients := ⟨(recipient0, recipient0, recipient0), List.replicate 12 0⟩
    swap_sequence_number := 0
    padding := List.replicate 12 0 }

/-- A concrete opaque AMM payload. -/
def ammBytes0 : PlasmaAmmState := ⟨List.replicate 96 0, rfl⟩

/-- A concrete pool snapshot over `hdr0`, at slot 7 with zero recorded
vault balances. -/
def snap0 : PlasmaAmm := ⟨poolAddr, ⟨hdr0, ammBytes0⟩, 0, 0, 7⟩

/-- The pool account to which a 624-byte all-zero buffer decodes. -/
def poolAccountZero : PoolAccount :=
  { header :=
    { discriminator := ⟨List.replicate 8 0, rfl⟩
      sequence_number := 0
      base_params := ⟨0, 0, pkZero, pkZero⟩
      quote_params := ⟨0, 0, pkZero, pkZero⟩
      fee_recipients := ⟨(recipient0, recipient0, recipient0), List.replicate 12 0⟩
      swap_sequence_number := 0
      padding := List.replicate 12 0 }
    amm := ⟨List.replicate 96 0, rfl⟩ }

/-- A 165-byte SPL token account image holding the given balance. -/
def tokenAccountBytes (amount : Nat) : List Byte :=
  List.replicate 64 0 ++ natToLE 8 amount ++ List.replicate 36 0 ++ [1] ++
    List.replicate 56 0

/-- A refresh account map with both vaults and the pool account present
and valid, and the clock absent. -/
def mapNoClock : AccountMap := fun k =>
  if k = baseVaultKey then some (tokenAccountBytes 5)
  else if k = quoteVaultKey then some (tokenAccountBytes 11)
  else if k = poolAddr then some (List.replicate 624 0)
  else none

/-- The empty account map. -/
def mapEmpty : AccountMap := fun _ => none

/-- A simulation capability returning fixed successful results, with
distinct transfer amounts in every position. -/
def simConst : Sim :=
  ⟨fun _ _ => .ok ⟨21, 22⟩, fun _ _ => .ok ⟨33, 44⟩⟩

/-- A quote request whose input mint is neither mint of `snap0`. -/
def qpThird : QuoteParams := ⟨1000, otherMint, baseMint, SwapMode.ExactIn⟩

/-! ## Lemmas and claim developments -/

theorem natToLE_length (w n : Nat) : (natToLE w n).length = w := by
  induction w generalizing n with
  | zero => rfl
  | succ w ih => simp [natToLE, ih]

theorem readLE_natToLE (w n : Nat) (rest : List Byte) (h : n < 256 ^ w) :
    readLE w (natToLE w n ++ rest) = some (n, rest) := by
  induction w generalizing n with
  | zero =>
    have hn : n = 0 := by simpa using h
    simp [hn, natToLE, readLE]
  | succ w ih =>
    have hdiv : n / 256 < 256 ^ w := by
      rw [Nat.div_lt_iff_lt_mul (by omega)]
      calc n < 256 ^ (w + 1) := h
        _ = 256 ^ w * 256 := by rw [Nat.pow_succ]
    simp only [natToLE, readLE, List.cons_append, List.append_eq]
    rw [ih (n / 256) hdiv]
    simp [byteOf, Nat.mod_add_div]

theorem readLE_length {w : Nat} {bs rest : List Byte} {n : Nat}
    (h : readLE w bs = some (n, rest)) : bs.length = w + rest.length := by
  induction w generalizing bs n with
  | zero =>
    simp [readLE] at h
    simp [h.2]
  | succ w ih =>
    match bs with
    | [] => simp [readLE] at h
    | b :: bs =>
      simp only [readLE] at h
      cases he : readLE w bs with
      | none => simp [he] at h
      | some p =>
        obtain ⟨m, rest2⟩ := p
        simp only [he] at h
        simp only [Option.some.injEq, Prod.mk.injEq] at h
        have hr : readLE w bs = some (m, rest) := by rw [he, h.2]
        have hlen := ih hr
        simp only [List.length_cons, hlen]
        omega

theorem readLE_total (w : Nat) (bs : List Byte) (h : w ≤ bs.length) :
    ∃ n, readLE w bs = some (n, bs.drop w) := by
  induction w generalizing bs with
  | zero => exact ⟨0, rfl⟩
  | succ w ih =>
    match bs with
    | [] => simp at h
    | b :: bs =>
      have hw : w ≤ bs.length := by simp at h; omega
      obtain ⟨n, hn⟩ := ih bs hw
      exact ⟨b.val + 256 * n, by simp [readLE, hn]⟩

theorem readVec_append {n : Nat} (v : Bytes n) (rest : List Byte) :
    readVec n (v.val ++ rest) = some (v, rest) := by
  have hlen : n ≤ (v.val ++ rest).length := by
    rw [List.length_append, v.prop]; omega
  simp [readVec, hlen, List.take_left' v.prop, List.drop_left' v.prop]

theorem readVec_length {n : Nat} {bs rest : List Byte} {v : Bytes n}
    (h : readVec n bs = some (v, rest)) : bs.length = n + rest.length := by
  unfold readVec at h
  split at h
  · next hle =>
    simp only [Option.some.injEq, Prod.mk.injEq] at h
    rw [← h.2, List.length_drop]
    omega
  · simp at h

theorem readVec_total (n : Nat) (bs : List Byte) (h : n ≤ bs.length) :
    ∃ v, readVec n bs = some (v, bs.drop n) := by
  unfold readVec
  rw [dif_pos h]
  exact ⟨_, rfl⟩

theorem readU64List_encode (l : List Nat) (rest : List Byte)
    (hb : ∀ x ∈ l, x < 256 ^ 8) :
    readU64List l.length (encodeU64List l ++ rest) = some (l, rest) := by
  induction l with
  | nil => rfl
  | cons x l ih =>
    have hx : x < 256 ^ 8 := hb x (by simp)
    have hl : ∀ y ∈ l, y < 256 ^ 8 := fun y hy => hb y (by simp [hy])
    have henc : encodeU64List (x :: l) = natToLE 8 x ++ encodeU64List l := rfl
    simp only [List.length_cons, readU64List, henc, List.append_assoc]
    rw [readLE_natToLE 8 x _ hx]
    simp only [Option.some_bind]
    rw [ih hl]
    simp only [Option.some_bind]

theorem readU64List_length {k : Nat} {bs rest : List Byte} {l : List Nat}
    (h : readU64List k bs = some (l, rest)) :
    bs.length = 8 * k + rest.length ∧ l.length = k := by
  induction k generalizing bs l with
  | zero =>
    simp only [readU64List, Option.some.injEq, Prod.mk.injEq] at h
    rw [← h.1, ← h.2]
    simp
  | succ k ih =>
    simp only [readU64List] at h
    cases he : readLE 8 bs with
    | none => simp [he] at h
    | some p =>
      obtain ⟨n, bs2⟩ := p
      rw [he] at h
      simp only [Option.some_bind] at h
      cases hu : readU64List k bs2 with
      | none => simp [hu] at h
      | some q =>
        obtain ⟨l2, rest2⟩ := q
        rw [hu] at h
        simp only [Option.some_bind, Option.some.injEq, Prod.mk.injEq] at h
        obtain ⟨hl1, hl2⟩ := h
        subst hl2
        have h8 := readLE_length he
        have hk := ih hu
        constructor
        · omega
        · rw [← hl1]
          simp [hk.2]

theorem readU64List_total (k : Nat) (bs : List Byte) (h : 8 * k ≤ bs.length) :
    ∃ l, readU64List k bs = some (l, bs.drop (8 * k)) := by
  induction k generalizing bs with
  | zero => exact ⟨[], rfl⟩
  | succ k ih =>
    obtain ⟨n, hn⟩ := readLE_total 8 bs (by omega)
    have hlen : 8 * k ≤ (bs.drop 8).length := by
      rw [List.length_drop]; omega
    obtain ⟨l, hl⟩ := ih (bs.drop 8) hlen
    refine ⟨n :: l, ?_⟩
    simp only [readU64List, hn, hl, Option.some_bind, List.drop_drop]
    rw [show 8 + 8 * k = 8 * (k + 1) from by ring]

theorem pureRead_sized {α : Type} (x : α) : ReadSized 0 (pureRead x) := by
  constructor
  · intro bs y rest h
    simp only [pureRead, Option.some.injEq, Prod.mk.injEq] at h
    rw [h.2]
    omega
  · intro bs h
    exact ⟨x, rfl⟩

theorem andThen_sized {α β : Type} {s1 s2 : Nat}
    {r : List Byte → Option (α × List Byte)}
    {k : α → List Byte → Option (β × List Byte)}
    (h1 : ReadSized s1 r) (h2 : ∀ a, ReadSized s2 (k a)) :
    ReadSized (s1 + s2) (andThen r k) := by
  constructor
  · intro bs x rest h
    simp only [andThen] at h
    cases he : r bs with
    | none => rw [he] at h; simp at h
    | some p =>
      rw [he] at h
      simp only [Option.some_bind] at h
      have e1 := h1.1 bs p.1 p.2 (by rw [he])
      have e2 := (h2 p.1).1 p.2 x rest h
      omega
  · intro bs h
    obtain ⟨a, ha⟩ := h1.2 bs (by omega)
    obtain ⟨b, hb⟩ := (h2 a).2 (bs.drop s1) (by rw [List.length_drop]; omega)
    refine ⟨b, ?_⟩
    simp only [andThen, ha, Option.some_bind]
    rw [hb, List.drop_drop]

theorem readLE_sized (w : Nat) : ReadSized w (readLE w) :=
  ⟨fun _ _ _ h => readLE_length h, fun bs h => readLE_total w bs h⟩

theorem readVec_sized (n : Nat) : ReadSized n (readVec n) :=
  ⟨fun _ _ _ h => readVec_length h, readVec_total n⟩

theorem readU64List_sized (k : Nat) : ReadSized (8 * k) (readU64List k) :=
  ⟨fun _ _ _ h => (readU64List_length h).1, readU64List_total k⟩

theorem readTokenParams_sized : ReadSized 72 readTokenParams := by
  have h := andThen_sized (readLE_sized 4) fun d : Nat =>
    andThen_sized (readLE_sized 4) fun v : Nat =>
    andThen_sized (readVec_sized 32) fun mk : Pubkey =>
    andThen_sized (readVec_sized 32) fun vk : Pubkey =>
    pureRead_sized (⟨d, v, mk, vk⟩ : TokenParams)
  exact h

theorem readRecipient_sized : ReadSized 56 readRecipient := by
  have h := andThen_sized (readVec_sized 32) fun r : Pubkey =>
    andThen_sized (readLE_sized 8) fun s : Nat =>
    andThen_sized (readLE_sized 8) fun t : Nat =>
    andThen_sized (readLE_sized 8) fun c : Nat =>
    pureRead_sized (⟨r, s, t, c⟩ : ProtocolFeeRecipient)
  exact h

theorem readRecipients_sized : ReadSized 264 readRecipients := by
  have h := andThen_sized readRecipient_sized fun r0 =>
    andThen_sized readRecipient_sized fun r1 =>
    andThen_sized readRecipient_sized fun r2 =>
    andThen_sized (readU64List_sized 12) fun p : List Nat =>
    pureRead_sized (⟨(r0, r1, r2), p⟩ : ProtocolFeeRecipients)
  exact h

theorem readPoolHeader_sized : ReadSized 528 readPoolHeader := by
  have h := andThen_sized (readVec_sized 8) fun d : Bytes 8 =>
    andThen_sized (readLE_sized 8) fun sq : Nat =>
    andThen_sized readTokenParams_sized fun bp =>
    andThen_sized readTokenParams_sized fun qp =>
    andThen_sized readRecipients_sized fun fr =>
    andThen_sized (readLE_sized 8) fun ssq : Nat =>
    andThen_sized (readU64List_sized 12) fun p : List Nat =>
    pureRead_sized (⟨d, sq, bp, qp, fr, ssq, p⟩ : PoolHeader)
  exact h

theorem readPoolAccount_sized : ReadSized 624 readPoolAccount := by
  have h := andThen_sized readPoolHeader_sized fun hd =>
    andThen_sized (readVec_sized 96) fun am : Bytes 96 =>
    pureRead_sized (⟨hd, am⟩ : PoolAccount)
  exact h

/-! ### Round-trip of the borsh codec -/
theorem readTokenParams_encode (t : TokenParams) (rest : List Byte) (hw : t.wf) :
    readTokenParams (encodeTokenParams t ++ rest) = some (t, rest) := by
  obtain ⟨h1, h2⟩ := hw
  simp only [readTokenParams, andThen, pureRead, encodeTokenParams, List.append_assoc]
  rw [readLE_natToLE 4 _ _ h1]
  simp only [Option.some_bind]
  rw [readLE_natToLE 4 _ _ h2]
  simp only [Option.some_bind]
  rw [readVec_append]
  simp only [Option.some_bind]
  rw [readVec_append]
  simp only [Option.some_bind]

theorem readRecipient_encode (r : ProtocolFeeRecipient) (rest : List Byte)
    (hw : r.wf) :
    readRecipient (encodeRecipient r ++ rest) = some (r, rest) := by
  obtain ⟨h1, h2, h3⟩ := hw
  simp only [readRecipient, andThen, pureRead, encodeRecipient, List.append_assoc]
  rw [readVec_append]
  simp only [Option.some_bind]
  rw [readLE_natToLE 8 _ _ h1]
  simp only [Option.some_bind]
  rw [readLE_natToLE 8 _ _ h2]
  simp only [Option.some_bind]
  rw [readLE_natToLE 8 _ _ h3]
  simp only [Option.some_bind]

theorem readRecipients_encode (f : ProtocolFeeRecipients) (rest : List Byte)
    (hw : f.wf) :
    readRecipients (encodeRecipients f ++ rest) = some (f, rest) := by
  obtain ⟨h0, h1, h2, h12, hb⟩ := hw
  simp only [readRecipients, andThen, pureRead, encodeRecipients, List.append_assoc]
  rw [readRecipient_encode _ _ h0]
  simp only [Option.some_bind]
  rw [readRecipient_encode _ _ h1]
  simp only [Option.some_bind]
  rw [readRecipient_encode _ _ h2]
  simp only [Option.some_bind]
  rw [← h12, readU64List_encode f.padding _ hb]
  simp only [Option.some_bind]

theorem readPoolHeader_encode (h : PoolHeader) (rest : List Byte) (hw : h.wf) :
    readPoolHeader (encodePoolHeader h ++ rest) = some (h, rest) := by
  obtain ⟨h1, h2, h3, h4, h5, h12, hb⟩ := hw
  simp only [readPoolHeader, andThen, pureRead, encodePoolHeader, List.append_assoc]
  rw [readVec_append]
  simp only [Option.some_bind]
  rw [readLE_natToLE 8 _ _ h1]
  simp only [Option.some_bind]
  rw [readTokenParams_encode _ _ h2]
  simp only [Option.some_bind]
  rw [readTokenParams_encode _ _ h3]
  simp only [Option.some_bind]
  rw [readRecipients_encode _ _ h4]
  simp only [Option.some_bind]
  rw [readLE_natToLE 8 _ _ h5]
  simp only [Option.some_bind]
  rw [← h12, readU64List_encode h.padding _ hb]
  simp only [Option.some_bind]

/-- Decoding succeeds exactly on buffers of the fixed pool account
length: the parse is insensitive to the content of every field. -/
theorem try_from_slice_isSome_iff (bs : List Byte) :
    (PoolAccount.try_from_slice bs).isSome = true ↔ bs.length = POOL_LEN := by
  constructor
  · intro h
    unfold PoolAccount.try_from_slice at h
    cases he : readPoolAccount bs with
    | none => rw [he] at h; simp at h
    | some p =>
      obtain ⟨a, rest⟩ := p
      rw [he] at h
      cases rest with
      | nil =>
        have hlen := readPoolAccount_sized.1 bs a [] he
        simpa [POOL_LEN] using hlen
      | cons x xs => simp at h
  · intro h
    have h624 : bs.length = 624 := by simpa [POOL_LEN] using h
    obtain ⟨a, ha⟩ := readPoolAccount_sized.2 bs (by omega)
    have hdrop : bs.drop 624 = [] := List.drop_eq_nil_of_le (by omega)
    rw [hdrop] at ha
    simp [PoolAccount.try_from_slice, ha]

theorem wrap128_eq_of_inRange {x : Int} (h1 : -(2 ^ 127) ≤ x)
    (h2 : x < 2 ^ 127) : wrap128 x = x := by
  unfold wrap128
  rw [Int.emod_eq_of_lt (by omega) (by omega)]
  omega

/-! ## Claim theorems -/

/-- C4: constructing a fixed-point value as the ratio of any numerator
over denominator zero fails with the division error rather than
producing a defined fixed-point value. -/
theorem claim_C4 (n : Nat) :
    I80F48.from_fraction n 0 = Except.error ArithError.DivisionByZero := rfl

/-- C6: for fixed-point values whose intermediate sum is representable
in the i128 bit range, adding then subtracting returns the first operand
exactly, and multiplying by the fixed-point one is the identity, with no
rounding drift. -/
theorem claim_C6 (a b : I80F48) (ha : a.inRange) (hb : b.inRange)
    (h1 : -(2 ^ 127) ≤ a.inner + b.inner) (h2 : a.inner + b.inner < 2 ^ 127) :
    a + b - b = a ∧ a * I80F48.from_num 1 = a := by
  obtain ⟨ha1, ha2⟩ := ha
  obtain ⟨ai⟩ := a
  obtain ⟨bi⟩ := b
  dsimp only at ha1 ha2 h1 h2
  refine ⟨?_, ?_⟩
  · show I80F48.sub (I80F48.add ⟨ai⟩ ⟨bi⟩) ⟨bi⟩ = ⟨ai⟩
    unfold I80F48.add I80F48.sub
    dsimp only
    rw [wrap128_eq_of_inRange h1 h2]
    rw [show ai + bi - bi = ai from by ring]
    rw [wrap128_eq_of_inRange ha1 ha2]
  · show I80F48.mul ⟨ai⟩ (I80F48.from_num 1) = ⟨ai⟩
    unfold I80F48.mul I80F48.from_num
    dsimp only
    simp only [Nat.cast_one, one_mul]
    rw [Int.mul_fdiv_cancel ai (show SCALE ≠ 0 from by norm_num [SCALE])]
    rw [wrap128_eq_of_inRange ha1 ha2]

/-- Witness for C6 at concrete values 2 and 3. -/
theorem claim_C6_witness :
    I80F48.from_num 2 + I80F48.from_num 3 - I80F48.from_num 3 = I80F48.from_num 2 ∧
    I80F48.from_num 2 * I80F48.from_num 1 = I80F48.from_num 2 :=
  claim_C6 (I80F48.from_num 2) (I80F48.from_num 3)
    (by constructor <;> decide) (by constructor <;> decide) (by decide) (by decide)

/-- C7: decoding the borsh encoding of any well-formed pool header
returns the original header field by field, with no bytes left over. -/
theorem claim_C7 (h : PoolHeader) (hw : h.wf) :
    readPoolHeader (encodePoolHeader h) = some (h, []) := by
  have hr := readPoolHeader_encode h [] hw
  simpa using hr

/-- Witness for C7 at the concrete header `hdr0`. -/
theorem claim_C7_witness :
    hdr0.wf ∧ readPoolHeader (encodePoolHeader hdr0) = some (hdr0, []) :=
  ⟨by decide, claim_C7 hdr0 (by decide)⟩

/-- C8: widening a u64 into fixed-point and flooring returns the value
(lossless round-trip) and the widening is injective; a successful floor
result is the greatest integer not exceeding the stored value; and a
value whose floor lies outside the u64 range is rejected with an
overflow error rather than silently converted. -/
theorem claim_C8 :
    (∀ v : Nat, v < 2 ^ 64 → (I80F48.from_num v).floor = Except.ok v) ∧
    (∀ v w : Nat, v < 2 ^ 64 → w < 2 ^ 64 →
      I80F48.from_num v = I80F48.from_num w → v = w) ∧
    (∀ (x : I80F48) (n : Nat), x.floor = Except.ok n →
      (n : Int) * SCALE ≤ x.inner ∧ x.inner < ((n : Int) + 1) * SCALE) ∧
    (∀ x : I80F48, x.inner < 0 ∨ (2 ^ 64 : Int) * SCALE ≤ x.inner →
      x.floor = Except.error ArithError.Overflow) := by
  refine ⟨?_, ?_, ?_, ?_⟩
  · intro v hv
    unfold I80F48.floor I80F48.from_num
    dsimp only
    rw [Int.mul_fdiv_cancel _ (show SCALE ≠ 0 from by norm_num [SCALE])]
    rw [if_pos ⟨Int.natCast_nonneg v, by exact_mod_cast hv⟩]
    simp
  · intro v w hv hw heq
    have hinner := congrArg I80F48.inner heq
    unfold I80F48.from_num at hinner
    dsimp only at hinner
    have hs : (v : Int) = (w : Int) :=
      mul_right_cancel₀ (show SCALE ≠ 0 from by norm_num [SCALE]) hinner
    exact_mod_cast hs
  · intro x n hfl
    unfold I80F48.floor at hfl
    split at hfl
    · next hc =>
      obtain ⟨hc1, hc2⟩ := hc
      simp only [Except.ok.injEq] at hfl
      have hfd : x.inner.fdiv SCALE = x.inner / SCALE :=
        Int.fdiv_eq_ediv _ (by norm_num [SCALE])
      have hn : (n : Int) = x.inner / SCALE := by
        rw [← hfl, Int.toNat_of_nonneg hc1, hfd]
      rw [hn]
      simp only [SCALE] at *
      omega
    · next => simp at hfl
  · intro x hx
    unfold I80F48.floor
    split
    · next hc =>
      exfalso
      obtain ⟨hc1, hc2⟩ := hc
      have hfd : x.inner.fdiv SCALE = x.inner / SCALE :=
        Int.fdiv_eq_ediv _ (by norm_num [SCALE])
      rw [hfd] at hc1 hc2
      simp only [SCALE] at *
      omega
    · next => rfl

/-- Witness for C8: the value 3 round-trips, and a negative bit pattern
is rejected by floor. -/
theorem claim_C8_witness :
    (I80F48.from_num 3).floor = Except.ok 3 ∧
    I80F48.floor ⟨-5⟩ = Except.error ArithError.Overflow :=
  ⟨claim_C8.1 3 (by decide), claim_C8.2.2.2 ⟨-5⟩ (Or.inl (by decide))⟩

/-- C9: quote never inspects the output mint or the swap mode of the
request: two requests agreeing on the amount and the input mint produce
identical results against the same snapshot and simulation; in
particular an exact-out request is quoted as if exact-in. -/
theorem claim_C9 (sim : Sim) (self : PlasmaAmm) (qp1 qp2 : QuoteParams)
    (h1 : qp1.amount = qp2.amount) (h2 : qp1.input_mint = qp2.input_mint) :
    quote sim self qp1 = quote sim self qp2 := by
  obtain ⟨a1, i1, o1, m1⟩ := qp1
  obtain ⟨a2, i2, o2, m2⟩ := qp2
  dsimp only at h1 h2
  subst h1
  subst h2
  rfl

/-- Witness for C9: same amount and input mint, different output mint
and swap mode, identical quotes. -/
theorem claim_C9_witness :
    quote simConst snap0 ⟨5, quoteMint, baseMint, SwapMode.ExactIn⟩ =
      quote simConst snap0 ⟨5, quoteMint, otherMint, SwapMode.ExactOut⟩ :=
  claim_C9 simConst snap0 _ _ rfl rfl

/-- C10: downcasting a u128 to u64 fails with the overflow error exactly
when the value exceeds the u64 maximum, and otherwise returns the same
numeric value with no truncation. -/
theorem claim_C10 (v : Nat) (hv : v < 2 ^ 128) :
    (downcast_u64 v = Except.error PlasmaStateError.Overflow ↔ U64_MAX < v) ∧
    (v ≤ U64_MAX → downcast_u64 v = Except.ok v) := by
  unfold downcast_u64
  constructor
  · split
    · next hgt => simpa using hgt
    · next hle => simp [hle]
  · intro hle
    rw [if_neg (by omega)]

/-- Witness for C10 at a value above and a value inside the u64 range. -/
theorem claim_C10_witness :
    ((downcast_u64 (2 ^ 70) = Except.error PlasmaStateError.Overflow ↔
        U64_MAX < 2 ^ 70) ∧
      (2 ^ 70 ≤ U64_MAX → downcast_u64 (2 ^ 70) = Except.ok (2 ^ 70))) ∧
    ((downcast_u64 9 = Except.error PlasmaStateError.Overflow ↔ U64_MAX < 9) ∧
      (9 ≤ U64_MAX → downcast_u64 9 = Except.ok 9)) :=
  ⟨claim_C10 (2 ^ 70) (by decide), claim_C10 9 (by decide)⟩

/-- C5: the swap instruction encoder emits the discriminator byte zero
followed by the serialized parameters, the fixed nine-account list in
order with its writable and signer flags, the trader as the only signer,
and the plasma program id; determinism over equal inputs is inherent to
the encoder being a pure function of these arguments. -/
theorem claim_C5 (pool_key trader base_mint quote_mint base_account_key
    quote_account_key : Pubkey) (params : SwapParams) :
    (swap pool_key trader base_mint quote_mint base_account_key quote_account_key
        params).data = SWAP_DISCRIMINATOR :: serializeSwapParams params ∧
    (swap pool_key trader base_mint quote_mint base_account_key quote_account_key
        params).accounts = [
      AccountMeta.new_readonly ID false,
      AccountMeta.new_readonly (get_log_authority ID) false,
      AccountMeta.new pool_key false,
      AccountMeta.new_readonly trader true,
      AccountMeta.new base_account_key false,
      AccountMeta.new quote_account_key false,
      AccountMeta.new (get_vault_address ID pool_key base_mint).1 false,
      AccountMeta.new (get_vault_address ID pool_key quote_mint).1 false,
      AccountMeta.new_readonly spl_token_ID false] ∧
    ((swap pool_key trader base_mint quote_mint base_account_key quote_account_key
        params).accounts.filter (fun m => m.is_signer)).map (fun m => m.pubkey) =
      [trader] ∧
    (swap pool_key trader base_mint quote_mint base_account_key quote_account_key
        params).program_id = ID :=
  ⟨rfl, rfl, rfl, rfl⟩

/-- C1 counterexample: refreshing `snap0` against a map that lacks only
the clock account returns the missing-account error, yet the caller
snapshot has already been mutated — the base vault amount changed from
0 to 5 — so the refresh is not all-or-nothing. -/
theorem claim_C1_counterexample :
    (update snap0 mapNoClock).1 = Except.error AdapterError.MissingAccount ∧
    (update snap0 mapNoClock).2.base_vault_amount = 5 ∧
    snap0.base_vault_amount = 0 :=
  ⟨rfl, rfl, rfl⟩

/-- C1 (amended): the refresh is not all-or-nothing. A failure before
the first write — the base vault account missing from the map — leaves
the snapshot unchanged field by field; but when both vaults unpack, the
pool account decodes, and only the clock account is missing, update
returns the missing-account error while the vault amounts and the pool
state already hold the freshly written values. -/
theorem claim_C1_amended :
    (∀ (self : PlasmaAmm) (account_map : AccountMap),
      account_map self.plasma_amm.header.base_params.vault_key = none →
      update self account_map = (Except.error AdapterError.MissingAccount, self)) ∧
    (∀ (self : PlasmaAmm) (account_map : AccountMap) (bd qd pd : List Byte)
      (bt qt : TokenAccount) (pa : PoolAccount),
      account_map self.plasma_amm.header.base_params.vault_key = some bd →
      TokenAccount.unpack bd = Except.ok bt →
      account_map self.plasma_amm.header.quote_params.vault_key = some qd →
      TokenAccount.unpack qd = Except.ok qt →
      account_map self.pool_address = some pd →
      PoolAccount.try_from_slice pd = some pa →
      account_map sysvar_clock_id = none →
      update self account_map =
        (Except.error AdapterError.MissingAccount,
          { self with
            base_vault_amount := bt.amount,
            quote_vault_amount := qt.amount,
            plasma_amm := pa })) := by
  constructor
  · intro self account_map h
    unfold update try_get_account_data
    rw [h]
  · intro self account_map bd qd pd bt qt pa h1 h2 h3 h4 h5 h6 h7
    unfold update try_get_account_data
    simp only [h1, h2, h3, h4, h5, h6, h7]

/-- Witness for C1 amended: against the empty map the refresh fails
without mutation, and against the clock-missing map it mutates the
vault amounts and pool state before failing. -/
theorem claim_C1_amended_witness :
    update snap0 mapEmpty = (Except.error AdapterError.MissingAccount, snap0) ∧
    update snap0 mapNoClock =
      (Except.error AdapterError.MissingAccount,
        { snap0 with
          base_vault_amount := 5,
          quote_vault_amount := 11,
          plasma_amm := poolAccountZero }) :=
  ⟨claim_C1_amended.1 snap0 mapEmpty rfl,
   claim_C1_amended.2 snap0 mapNoClock (tokenAccountBytes 5) (tokenAccountBytes 11)
     (List.replicate 624 0) ⟨5⟩ ⟨11⟩ poolAccountZero rfl rfl rfl rfl rfl rfl rfl⟩

/-- C2 counterexample: a 624-byte all-zero buffer decodes successfully
into a snapshot even though its leading 8 bytes differ from the expected
pool discriminator — the decoder never compares them. -/
theorem claim_C2_counterexample :
    from_keyed_account ⟨poolAddr, List.replicate 624 0⟩ ⟨7⟩ =
      Except.ok
        { pool_address := poolAddr
          plasma_amm := poolAccountZero
          base_vault_amount := 0
          quote_vault_amount := 0
          slot := 7 } ∧
    poolAccountZero.header.discriminator ≠ POOL_DISCRIMINATOR :=
  ⟨rfl, by decide⟩

/-- C2 (amended): decoding a pool account validates only the buffer
length: it fails with the decode error exactly when the byte length
differs from the fixed 624-byte layout (in particular when the buffer is
too short), and succeeds on every exactly-sized buffer regardless of the
leading discriminator bytes, which are never checked. -/
theorem claim_C2_amended (keyed_account : KeyedAccount) (amm_context : AmmContext) :
    from_keyed_account keyed_account amm_context =
        Except.error AdapterError.PoolDecodeFailed ↔
      keyed_account.data.length ≠ POOL_LEN := by
  unfold from_keyed_account
  cases ht : PoolAccount.try_from_slice keyed_account.data with
  | none =>
    have hne : ¬keyed_account.data.length = POOL_LEN := by
      intro hl
      have hs := (try_from_slice_isSome_iff keyed_account.data).2 hl
      rw [ht] at hs
      simp at hs
    simp [hne]
  | some a =>
    have hl := (try_from_slice_isSome_iff keyed_account.data).1 (by rw [ht]; rfl)
    simp [hl]

/-- C3 counterexample: a quote request whose input mint is neither pool
mint does not fail: it is routed to the sell-base simulation and
succeeds with the sell-side output amount. -/
theorem claim_C3_counterexample :
    quote simConst snap0 qpThird = Except.ok ⟨1000, 44⟩ := rfl

/-- C3 (amended): quote selects the buy-base simulation exactly when the
input mint equals the quote mint of the snapshot, and for every other
input mint — the base mint, but also any unknown third mint — it selects
the sell-base simulation; an unrecognized input mint is not rejected. -/
theorem claim_C3_amended (sim : Sim) (self : PlasmaAmm) (qp : QuoteParams) :
    (qp.input_mint = self.plasma_amm.header.quote_params.mint_key →
      quote sim self qp =
        (sim.simulate_buy_exact_in_with_slot self.slot qp.amount).map
          (fun r => ⟨qp.amount, r.base_amount_to_transfer⟩)) ∧
    (qp.input_mint ≠ self.plasma_amm.header.quote_params.mint_key →
      quote sim self qp =
        (sim.simulate_sell_exact_in_with_slot self.slot qp.amount).map
          (fun r => ⟨qp.amount, r.quote_amount_to_transfer⟩)) := by
  constructor
  · intro h
    unfold quote
    rw [decide_eq_true h]
    cases hs : sim.simulate_buy_exact_in_with_slot self.slot qp.amount with
    | error e => simp [hs, Except.map]
    | ok r => simp [hs, Except.map]
  · intro h
    unfold quote
    rw [decide_eq_false h]
    cases hs : sim.simulate_sell_exact_in_with_slot self.slot qp.amount with
    | error e => simp [hs, Except.map]
    | ok r => simp [hs, Except.map]

/-- Witness for C3 amended: a concrete buy-direction request and a
concrete third-mint request against `snap0`. -/
theorem claim_C3_amended_witness :
    quote simConst snap0 ⟨1000, quoteMint, baseMint, SwapMode.ExactIn⟩ =
      (simConst.simulate_buy_exact_in_with_slot snap0.slot 1000).map
        (fun r => ⟨1000, r.base_amount_to_transfer⟩) ∧
    quote simConst snap0 qpThird =
      (simConst.simulate_sell_exact_in_with_slot snap0.slot qpThird.amount).map
        (fun r => ⟨qpThird.amount, r.quote_amount_to_transfer⟩) :=
  ⟨(claim_C3_amended simConst snap0 ⟨1000, quoteMint, baseMint, SwapMode.ExactIn⟩).1 rfl,
   (claim_C3_amended simConst snap0 qpThird).2 (by decide)⟩

end PlasmaSdk
